import Mathlib

/-!
# Verification of the smdebug tensor-analysis rules

Shallow embedding of the custom rule classes defined in
`sagemaker-debugger/mnist_tensor_analysis/mnist_tensor_analysis.ipynb`
(`ActivationOutputs`, `ActivationInputs`, `GradientsLayer`,
`GradientsAcrossLayers`, `WeightRatio`, `Inputs`, `Outputs`) together with
the driver loop that feeds them steps (`invoke_rule` wrapped in the
notebook's `try/except NoMoreData`).

Modelling decisions:
  * numpy tensors are rectangular `List (List ℚ)` values; `np.sum(t, axis=0)`
    is column-wise addition, `np.var` is the population variance of the
    flattened list;
  * Python `dict` / `collections.OrderedDict` (both insertion ordered in the
    Python used by the notebook) are association lists where a new key is
    appended and an existing key is updated in place;
  * `trial.tensor_names(regex=".*X")` (smdebug) returns, in order, the stored
    tensor names whose text contains `X` (`re.match` with a leading greedy
    `.*` succeeds exactly on names containing the rest of the pattern);
  * `trial.tensor(n).value(step)` either returns a tensor or raises; the
    raising fetch is an `Option`-valued field of the trial, `none` standing
    for the raised exception that the rules catch and log.
-/

/-- `leadMatch pat cs` is true when `pat` is a prefix of `cs` (character lists). -/
def leadMatch : List Char → List Char → Bool
  | [], _ => true
  | _ :: _, [] => false
  | p :: ps, c :: cs => p == c && leadMatch ps cs

/-- `hasSubL pat cs` is true when `pat` occurs contiguously inside `cs`. -/
def hasSubL (pat : List Char) : List Char → Bool
  | [] => leadMatch pat []
  | c :: cs => leadMatch pat (c :: cs) || hasSubL pat cs

/-- Python's `pat in s` substring test, also the effect of
`tensor_names(regex=".*pat")`. -/
def hasSubstr (s pat : String) : Bool :=
  hasSubL pat.toList s.toList

/-- Ordered-dictionary lookup (`d[k]` / `k in d`) on an association list. -/
def lookupA {α β : Type} [DecidableEq α] : List (α × β) → α → Option β
  | [], _ => none
  | (a, b) :: rest, k => if a = k then some b else lookupA rest k

/-- Ordered-dictionary write `d[k] = v`: update in place when the key exists,
append otherwise (Python dict insertion order). -/
def insertA {α β : Type} [DecidableEq α] : List (α × β) → α → β → List (α × β)
  | [], k, v => [(k, v)]
  | (a, b) :: rest, k, v => if a = k then (a, v) :: rest else (a, b) :: insertA rest k v

/-- The key sequence of an ordered dictionary, in insertion order. -/
def keysA {α β : Type} (m : List (α × β)) : List α :=
  m.map Prod.fst

/-- A numpy tensor: list of rows of rationals (rank ≥ 2 tensors are flattened
into rows × features; rank-1 tensors are a single row). -/
abbrev Tensor := List (List ℚ)

/-- Column-wise `np.sum(tensor, axis=0)` for a non-empty rectangular tensor. -/
def sumAxis0 : Tensor → List ℚ
  | [] => []
  | [r] => r
  | r :: r2 :: rs => List.zipWith (· + ·) r (sumAxis0 (r2 :: rs))

/-- `np.sum(tensor, axis=0) / tensor.shape[0]`, the batch-averaged value the
activation rules accumulate. -/
def batch_over_sum (ten : Tensor) : List ℚ :=
  (sumAxis0 ten).map (fun x => x / (ten.length : ℚ))

/-- `np.var(tensor.flatten())`: population variance, mean of squares minus
square of mean. -/
def npvar (l : List ℚ) : ℚ :=
  (l.foldl (fun a x => a + x * x) 0) / (l.length : ℚ) -
    ((l.foldl (· + ·) 0) / (l.length : ℚ)) ^ 2

/-- The tensor trace handle the rules read (`smdebug` `Trial`): the stored
tensor names, and the fetch of a tensor value at a step; `none` models the
exception the fetch raises when the value is unavailable. -/
structure Trial where
  names : List String
  value : String → Nat → Option Tensor

/-- `trial.tensor_names(regex=".*pat")`: the stored names containing `pat`,
in storage order. -/
def Trial.tensor_names (t : Trial) (pat : String) : List String :=
  t.names.filter (fun n => hasSubstr n pat)

/-- The `"excl" not in tname` guard used by five of the rules (`none` when a
rule has no such guard). -/
def exclCheck : Option String → String → Bool
  | none, _ => false
  | some e, n => hasSubstr n e

/-- Accumulator of the six name-keyed rules: tensor name → (step → value). -/
abbrev NamedMap (Val : Type) := List (String × List (Nat × Val))

/-- Double lookup `self.tensors[name][step]` in a name-keyed accumulator. -/
def lookup2 {Val : Type} (st : NamedMap Val) (name : String) (step : Nat) : Option Val :=
  (lookupA st name).bind (fun inner => lookupA inner step)

/-- Loop body shared verbatim by the six name-keyed rules: skip the name when
the exclusion guard fires; try the fetch, and on failure log and leave the
accumulator unchanged; on success create the missing inner dict and write the
rule's value for `(name, step)` (`upd` receives the previous entry, if any,
and the fetched tensor). -/
def procName {Val : Type} (excl : Option String) (upd : Option Val → Tensor → Val)
    (t : Trial) (step : Nat) (st : NamedMap Val) (name : String) : NamedMap Val :=
  if exclCheck excl name then st
  else
    match t.value name step with
    | none => st
    | some tensor =>
        let inner := (lookupA st name).getD []
        insertA st name (insertA inner step (upd (lookupA inner step) tensor))

/-- `invoke_at_step` of a name-keyed rule: iterate the loop body over
`tensor_names(regex=".*pat")` and `return False`. -/
def invokeNamed {Val : Type} (pat : String) (excl : Option String)
    (upd : Option Val → Tensor → Val) (t : Trial) (st : NamedMap Val) (step : Nat) :
    NamedMap Val × Bool :=
  ((t.tensor_names pat).foldl (procName excl upd t step) st, false)

/-- `self.tensors[tname][step] = 0` followed by `+= batch_over_sum`: a fresh
entry becomes the batch average, an existing one has it added element-wise
(`ActivationOutputs` / `ActivationInputs`). -/
def sumUpd (cur : Option (List ℚ)) (tensor : Tensor) : List ℚ :=
  match cur with
  | none => batch_over_sum tensor
  | some v => List.zipWith (· + ·) v (batch_over_sum tensor)

/-- `self.tensors[tname][step] = tensor`: store the raw fetched tensor
(`GradientsLayer`, `WeightRatio`, `Inputs`, `Outputs`). -/
def storeUpd (_cur : Option Tensor) (tensor : Tensor) : Tensor :=
  tensor

/-- `ActivationOutputs.invoke_at_step`: regex `.*relu_output`, guard
`"gradients" not in tname`, batch-averaged sum accumulator. -/
def ActivationOutputs.invoke_at_step (t : Trial) (st : NamedMap (List ℚ)) (step : Nat) :
    NamedMap (List ℚ) × Bool :=
  invokeNamed "relu_output" (some "gradients") sumUpd t st step

/-- `ActivationInputs.invoke_at_step`: regex `.*relu_input`, guard
`"gradients" not in tname`, batch-averaged sum accumulator. -/
def ActivationInputs.invoke_at_step (t : Trial) (st : NamedMap (List ℚ)) (step : Nat) :
    NamedMap (List ℚ) × Bool :=
  invokeNamed "relu_input" (some "gradients") sumUpd t st step

/-- `GradientsLayer.invoke_at_step`: regex `.*gradient`, no guard, stores the
raw tensor. -/
def GradientsLayer.invoke_at_step (t : Trial) (st : NamedMap Tensor) (step : Nat) :
    NamedMap Tensor × Bool :=
  invokeNamed "gradient" none storeUpd t st step

/-- `WeightRatio.invoke_at_step` (the notebook's `WeightRatio` class): regex
`.*weight`, guard `"gradient" not in tname`, stores the raw tensor. -/
def WeightRatioRule.invoke_at_step (t : Trial) (st : NamedMap Tensor) (step : Nat) :
    NamedMap Tensor × Bool :=
  invokeNamed "weight" (some "gradient") storeUpd t st step

/-- `Inputs.invoke_at_step`: regex `.*input`, guard `"relu" not in tname`,
stores the raw tensor. -/
def Inputs.invoke_at_step (t : Trial) (st : NamedMap Tensor) (step : Nat) :
    NamedMap Tensor × Bool :=
  invokeNamed "input" (some "relu") storeUpd t st step

/-- `Outputs.invoke_at_step`: regex `.*output`, guard `"relu" not in tname`,
stores the raw tensor. -/
def Outputs.invoke_at_step (t : Trial) (st : NamedMap Tensor) (step : Nat) :
    NamedMap Tensor × Bool :=
  invokeNamed "output" (some "relu") storeUpd t st step

/-- Accumulator of `GradientsAcrossLayers`: step → `[min_variance, max_variance]`,
initialised to `[np.inf, 0]`; `none` in the first component models `np.inf`. -/
abbrev StepMap := List (Nat × (Option ℚ × ℚ))

/-- Loop body of `GradientsAcrossLayers.invoke_at_step`: try the fetch (on
failure log and skip); initialise `self.tensors[step] = [np.inf, 0]` when the
step is new; compute the variance of the flattened tensor; then
`if variance < min: min = variance  elif variance > max: max = variance`. -/
def gradAcrossProc (t : Trial) (step : Nat) (st : StepMap) (name : String) : StepMap :=
  match t.value name step with
  | none => st
  | some tensor =>
      let st1 := match lookupA st step with
        | some _ => st
        | none => insertA st step (none, 0)
      let pair := (lookupA st1 step).getD (none, 0)
      let variance := npvar tensor.flatten
      let pair2 :=
        if (match pair.1 with | none => true | some m => decide (variance < m)) then
          (some variance, pair.2)
        else if variance > pair.2 then (pair.1, variance)
        else pair
      insertA st1 step pair2

/-- `GradientsAcrossLayers.invoke_at_step`: regex `.*gradient`, running
(min, max) variance pair per step, `return False`. -/
def GradientsAcrossLayers.invoke_at_step (t : Trial) (st : StepMap) (step : Nat) :
    StepMap × Bool :=
  ((t.tensor_names "gradient").foldl (gradAcrossProc t step) st, false)

/-- Outcome of a driver run: the run either exhausts the trace (the external
`NoMoreData` exception) or stops because `invoke_at_step` returned `True`
(smdebug's rule-condition-met exception). -/
inductive RunResult (σ : Type) where
  | noMoreData : σ → RunResult σ
  | conditionMet : σ → RunResult σ
  deriving DecidableEq

/-- Modelled from the spec: smdebug's `invoke_rule` driver is not part of this
repository; per the spec it feeds the rule the available steps in order as a
sequence of notifications, stops with the rule's state when `invoke_at_step`
reports an issue, and otherwise ends the notification sequence with the
explicit `NoMoreData` signal once the training job completes. -/
def invoke_rule {σ : Type} (f : σ → Nat → σ × Bool) : List Nat → σ → RunResult σ
  | [], st => .noMoreData st
  | s :: rest, st =>
      let r := f st s
      if r.2 then .conditionMet r.1 else invoke_rule f rest r.1

/-- Plain fold of `invoke_at_step` over a step sequence (the state reached by
a driver run that is never stopped by the rule condition). -/
def runSteps {σ : Type} (f : σ → Nat → σ × Bool) (steps : List Nat) (st : σ) : σ :=
  steps.foldl (fun s stp => (f s stp).1) st

/-- The notebook cell around each rule:
`try: invoke_rule(rule) except NoMoreData: print(...)` — both outcomes leave
the rule's accumulated state available to the following plotting cell. -/
def notebookRun {σ : Type} (f : σ → Nat → σ × Bool) (steps : List Nat) (st : σ) : σ :=
  match invoke_rule f steps st with
  | .noMoreData s => s
  | .conditionMet s => s

/-! ## Association-list (ordered dictionary) lemmas -/

theorem lookupA_insertA_self {α β : Type} [DecidableEq α] (m : List (α × β)) (k : α) (v : β) :
    lookupA (insertA m k v) k = some v := by
  induction m with
  | nil => simp [insertA, lookupA]
  | cons p rest ih =>
      obtain ⟨a, b⟩ := p
      by_cases h : a = k
      · subst h; simp [insertA, lookupA]
      · simp [insertA, lookupA, h, ih]

theorem lookupA_insertA_ne {α β : Type} [DecidableEq α] (m : List (α × β)) {k k' : α} (v : β)
    (h : k ≠ k') : lookupA (insertA m k v) k' = lookupA m k' := by
  induction m with
  | nil => simp [insertA, lookupA, h]
  | cons p rest ih =>
      obtain ⟨a, b⟩ := p
      by_cases ha : a = k
      · subst ha; simp [insertA, lookupA, h]
      · by_cases ha' : a = k'
        · subst ha'; simp [insertA, lookupA, ha]
        · simp [insertA, lookupA, ha, ha', ih]

theorem keysA_insertA_extend {α β : Type} [DecidableEq α] (m : List (α × β)) (k : α) (v : β) :
    ∃ tl, keysA (insertA m k v) = keysA m ++ tl := by
  induction m with
  | nil => exact ⟨[k], rfl⟩
  | cons p rest ih =>
      obtain ⟨a, b⟩ := p
      by_cases h : a = k
      · exact ⟨[], by simp [insertA, keysA, h]⟩
      · obtain ⟨tl, htl⟩ := ih
        exact ⟨tl, by simp [insertA, keysA, h]; simpa [keysA] using htl⟩

/-! ## Loop-body lemmas for the name-keyed rules -/

theorem procName_skip {Val : Type} (excl : Option String) (upd : Option Val → Tensor → Val)
    (t : Trial) (step : Nat) (st : NamedMap Val) (name : String)
    (h : exclCheck excl name = true) : procName excl upd t step st name = st := by
  simp [procName, h]

theorem procName_fail {Val : Type} (excl : Option String) (upd : Option Val → Tensor → Val)
    (t : Trial) (step : Nat) (st : NamedMap Val) (name : String)
    (h : t.value name step = none) : procName excl upd t step st name = st := by
  by_cases he : exclCheck excl name = true
  · simp [procName, he]
  · simp [procName, he, h]

theorem procName_lookupA_ne {Val : Type} (excl : Option String) (upd : Option Val → Tensor → Val)
    (t : Trial) (step : Nat) (st : NamedMap Val) {n' name : String} (h : n' ≠ name) :
    lookupA (procName excl upd t step st n') name = lookupA st name := by
  by_cases he : exclCheck excl n' = true
  · simp [procName, he]
  · cases hv : t.value n' step with
    | none => simp [procName, he, hv]
    | some ten => simp [procName, he, hv, lookupA_insertA_ne _ _ h]

theorem procName_self {Val : Type} (excl : Option String) (upd : Option Val → Tensor → Val)
    (t : Trial) (step : Nat) (st : NamedMap Val) {name : String} {ten : Tensor}
    (he : exclCheck excl name = false) (hv : t.value name step = some ten) :
    lookup2 (procName excl upd t step st name) name step =
      some (upd (lookup2 st name step) ten) := by
  simp only [procName, he, Bool.false_eq_true, if_false, hv, lookup2]
  rw [lookupA_insertA_self]
  simp only [Option.some_bind, lookupA_insertA_self]
  cases ho : lookupA st name <;> simp [ho, lookupA]

theorem procName_lookup2_isSome_mono {Val : Type} (excl : Option String)
    (upd : Option Val → Tensor → Val) (t : Trial) (step : Nat) (st : NamedMap Val)
    (n' name : String) (s : Nat) (h : (lookup2 st name s).isSome = true) :
    (lookup2 (procName excl upd t step st n') name s).isSome = true := by
  by_cases hn : n' = name
  · subst hn
    by_cases he : exclCheck excl n' = true
    · rwa [procName_skip _ _ _ _ _ _ he]
    · cases hv : t.value n' step with
      | none => rwa [procName_fail _ _ _ _ _ _ hv]
      | some ten =>
          simp only [procName, he, Bool.false_eq_true, if_false, hv, lookup2]
          rw [lookupA_insertA_self]
          simp only [Option.some_bind]
          obtain ⟨i, hi⟩ : ∃ i, lookupA st n' = some i := by
            simp only [lookup2] at h
            cases hq : lookupA st n' with
            | none => rw [hq] at h; simp at h
            | some i => exact ⟨i, rfl⟩
          rw [hi]
          by_cases hs : s = step
          · subst hs; simp [lookupA_insertA_self]
          · rw [lookupA_insertA_ne _ _ (fun e => hs e.symm)]
            simp only [lookup2, hi, Option.some_bind] at h
            exact h
  · unfold lookup2
    rw [procName_lookupA_ne _ _ _ _ _ hn]
    exact h

theorem procName_lookup2_step_ne {Val : Type} (excl : Option String)
    (upd : Option Val → Tensor → Val) (t : Trial) (step : Nat) (st : NamedMap Val)
    (n' name : String) {s : Nat} (hs : s ≠ step) :
    lookup2 (procName excl upd t step st n') name s = lookup2 st name s := by
  by_cases hn : n' = name
  · subst hn
    by_cases he : exclCheck excl n' = true
    · rw [procName_skip _ _ _ _ _ _ he]
    · cases hv : t.value n' step with
      | none => rw [procName_fail _ _ _ _ _ _ hv]
      | some ten =>
          simp only [procName, he, Bool.false_eq_true, if_false, hv, lookup2]
          rw [lookupA_insertA_self]
          simp only [Option.some_bind]
          rw [lookupA_insertA_ne _ _ (fun e => hs e.symm)]
          cases ho : lookupA st n' <;> simp [ho, lookupA]
  · unfold lookup2
    rw [procName_lookupA_ne _ _ _ _ _ hn]

theorem procName_keys_extend {Val : Type} (excl : Option String)
    (upd : Option Val → Tensor → Val) (t : Trial) (step : Nat) (st : NamedMap Val)
    (name : String) :
    ∃ tl, keysA (procName excl upd t step st name) = keysA st ++ tl := by
  by_cases he : exclCheck excl name = true
  · exact ⟨[], by rw [procName_skip _ _ _ _ _ _ he]; simp⟩
  · cases hv : t.value name step with
    | none => exact ⟨[], by rw [procName_fail _ _ _ _ _ _ hv]; simp⟩
    | some ten =>
        simp only [procName, he, Bool.false_eq_true, if_false, hv]
        exact keysA_insertA_extend _ _ _

theorem procName_inner_keys_extend {Val : Type} (excl : Option String)
    (upd : Option Val → Tensor → Val) (t : Trial) (step : Nat) (st : NamedMap Val)
    (n' name : String) {inner : List (Nat × Val)} (h : lookupA st name = some inner) :
    ∃ inner2 tl, lookupA (procName excl upd t step st n') name = some inner2 ∧
      keysA inner2 = keysA inner ++ tl := by
  by_cases hn : n' = name
  · subst hn
    by_cases he : exclCheck excl n' = true
    · exact ⟨inner, [], by rw [procName_skip _ _ _ _ _ _ he]; simpa using h⟩
    · cases hv : t.value n' step with
      | none => exact ⟨inner, [], by rw [procName_fail _ _ _ _ _ _ hv]; simpa using h⟩
      | some ten =>
          simp only [procName, he, Bool.false_eq_true, if_false, hv, h, Option.getD_some]
          obtain ⟨tl, htl⟩ := keysA_insertA_extend inner step (upd (lookupA inner step) ten)
          exact ⟨_, tl, lookupA_insertA_self _ _ _, htl⟩
  · exact ⟨inner, [], by rw [procName_lookupA_ne _ _ _ _ _ hn]; simpa using h⟩

/-! ## Fold lemmas: one `invoke_at_step` pass of a name-keyed rule -/

theorem foldProc_lookupA_skip {Val : Type} (excl : Option String)
    (upd : Option Val → Tensor → Val) (t : Trial) (step : Nat) (name : String) :
    ∀ (l : List String) (st : NamedMap Val), (exclCheck excl name = true ∨ name ∉ l) →
      lookupA (l.foldl (procName excl upd t step) st) name = lookupA st name := by
  intro l
  induction l with
  | nil => intro st _; rfl
  | cons a l ih =>
      intro st h
      rw [List.foldl_cons]
      have hstep : lookupA (procName excl upd t step st a) name = lookupA st name := by
        by_cases ha : a = name
        · subst ha
          cases h with
          | inl he => rw [procName_skip _ _ _ _ _ _ he]
          | inr hm => exact absurd (List.mem_cons_self a l) hm
        · exact procName_lookupA_ne _ _ _ _ _ ha
      rw [ih _ ?side, hstep]
      case side =>
        cases h with
        | inl he => exact Or.inl he
        | inr hm => exact Or.inr (fun hx => hm (List.mem_cons_of_mem a hx))

theorem foldProc_lookup2_isSome_mono {Val : Type} (excl : Option String)
    (upd : Option Val → Tensor → Val) (t : Trial) (step : Nat) (name : String) (s : Nat) :
    ∀ (l : List String) (st : NamedMap Val), (lookup2 st name s).isSome = true →
      (lookup2 (l.foldl (procName excl upd t step) st) name s).isSome = true := by
  intro l
  induction l with
  | nil => intro st h; exact h
  | cons a l ih =>
      intro st h
      rw [List.foldl_cons]
      exact ih _ (procName_lookup2_isSome_mono _ _ _ _ _ _ _ _ h)

theorem foldProc_entry_exists {Val : Type} (excl : Option String)
    (upd : Option Val → Tensor → Val) (t : Trial) (step : Nat) {name : String} {ten : Tensor}
    (he : exclCheck excl name = false) (hv : t.value name step = some ten) :
    ∀ (l : List String) (st : NamedMap Val), name ∈ l →
      (lookup2 (l.foldl (procName excl upd t step) st) name step).isSome = true := by
  intro l
  induction l with
  | nil => intro st h; cases h
  | cons a l ih =>
      intro st h
      rw [List.foldl_cons]
      by_cases ha : a = name
      · subst ha
        apply foldProc_lookup2_isSome_mono
        rw [procName_self _ _ _ _ _ he hv]
        rfl
      · cases List.mem_cons.mp h with
        | inl h1 => exact absurd h1.symm ha
        | inr h2 => exact ih _ h2

theorem foldProc_lookup2_step_ne {Val : Type} (excl : Option String)
    (upd : Option Val → Tensor → Val) (t : Trial) (step : Nat) (name : String) {s : Nat}
    (hs : s ≠ step) :
    ∀ (l : List String) (st : NamedMap Val),
      lookup2 (l.foldl (procName excl upd t step) st) name s = lookup2 st name s := by
  intro l
  induction l with
  | nil => intro st; rfl
  | cons a l ih =>
      intro st
      rw [List.foldl_cons, ih, procName_lookup2_step_ne _ _ _ _ _ _ _ hs]

theorem foldProc_keys_extend {Val : Type} (excl : Option String)
    (upd : Option Val → Tensor → Val) (t : Trial) (step : Nat) :
    ∀ (l : List String) (st : NamedMap Val),
      ∃ tl, keysA (l.foldl (procName excl upd t step) st) = keysA st ++ tl := by
  intro l
  induction l with
  | nil => intro st; exact ⟨[], by simp⟩
  | cons a l ih =>
      intro st
      rw [List.foldl_cons]
      obtain ⟨tl1, h1⟩ := procName_keys_extend excl upd t step st a
      obtain ⟨tl2, h2⟩ := ih (procName excl upd t step st a)
      exact ⟨tl1 ++ tl2, by rw [h2, h1, List.append_assoc]⟩

theorem foldProc_inner_keys_extend {Val : Type} (excl : Option String)
    (upd : Option Val → Tensor → Val) (t : Trial) (step : Nat) (name : String) :
    ∀ (l : List String) (st : NamedMap Val) (inner : List (Nat × Val)),
      lookupA st name = some inner →
      ∃ inner2 tl, lookupA (l.foldl (procName excl upd t step) st) name = some inner2 ∧
        keysA inner2 = keysA inner ++ tl := by
  intro l
  induction l with
  | nil => intro st inner h; exact ⟨inner, [], h, by simp⟩
  | cons a l ih =>
      intro st inner h
      rw [List.foldl_cons]
      obtain ⟨i1, tl1, hi1, hk1⟩ := procName_inner_keys_extend excl upd t step st a name h
      obtain ⟨i2, tl2, hi2, hk2⟩ := ih _ _ hi1
      exact ⟨i2, tl1 ++ tl2, hi2, by rw [hk2, hk1, List.append_assoc]⟩

/-! ## Lemmas for the step-keyed rule `GradientsAcrossLayers` -/

theorem keysA_insertA2_extend {α β : Type} [DecidableEq α] (m : List (α × β)) (k : α)
    (v v' : β) : ∃ tl, keysA (insertA (insertA m k v) k v') = keysA m ++ tl := by
  obtain ⟨tl1, h1⟩ := keysA_insertA_extend m k v
  obtain ⟨tl2, h2⟩ := keysA_insertA_extend (insertA m k v) k v'
  exact ⟨tl1 ++ tl2, by rw [h2, h1, List.append_assoc]⟩

theorem gradAcrossProc_fail (t : Trial) (step : Nat) (st : StepMap) (name : String)
    (h : t.value name step = none) : gradAcrossProc t step st name = st := by
  simp [gradAcrossProc, h]

theorem gradAcrossProc_lookupA_ne (t : Trial) (step : Nat) (st : StepMap) (name : String)
    {s : Nat} (hs : s ≠ step) : lookupA (gradAcrossProc t step st name) s = lookupA st s := by
  cases hv : t.value name step with
  | none => rw [gradAcrossProc_fail _ _ _ _ hv]
  | some ten =>
      simp only [gradAcrossProc, hv]
      rw [lookupA_insertA_ne _ _ (fun e => hs e.symm)]
      cases ho : lookupA st step with
      | some p => simp [ho]
      | none => simp [ho, lookupA_insertA_ne _ _ (fun e => hs e.symm)]

theorem gradAcrossProc_isSome_mono (t : Trial) (step : Nat) (st : StepMap) (name : String)
    (s : Nat) (h : (lookupA st s).isSome = true) :
    (lookupA (gradAcrossProc t step st name) s).isSome = true := by
  by_cases hs : s = step
  · subst hs
    cases hv : t.value name s with
    | none => rwa [gradAcrossProc_fail _ _ _ _ hv]
    | some ten => simp [gradAcrossProc, hv, lookupA_insertA_self]
  · rwa [gradAcrossProc_lookupA_ne _ _ _ _ hs]

theorem gradAcrossProc_entry (t : Trial) (step : Nat) (st : StepMap) (name : String)
    {ten : Tensor} (hv : t.value name step = some ten) :
    (lookupA (gradAcrossProc t step st name) step).isSome = true := by
  simp [gradAcrossProc, hv, lookupA_insertA_self]

theorem gradAcrossProc_keys_extend (t : Trial) (step : Nat) (st : StepMap) (name : String) :
    ∃ tl, keysA (gradAcrossProc t step st name) = keysA st ++ tl := by
  cases hv : t.value name step with
  | none => exact ⟨[], by rw [gradAcrossProc_fail _ _ _ _ hv]; simp⟩
  | some ten =>
      simp only [gradAcrossProc, hv]
      cases ho : lookupA st step with
      | some p =>
          simp only [ho]
          exact keysA_insertA_extend _ _ _
      | none =>
          simp only [ho]
          exact keysA_insertA2_extend st step _ _

theorem galFold_lookupA_ne (t : Trial) (step : Nat) {s : Nat} (hs : s ≠ step) :
    ∀ (l : List String) (st : StepMap),
      lookupA (l.foldl (gradAcrossProc t step) st) s = lookupA st s := by
  intro l
  induction l with
  | nil => intro st; rfl
  | cons a l ih =>
      intro st
      rw [List.foldl_cons, ih, gradAcrossProc_lookupA_ne _ _ _ _ hs]

theorem galFold_isSome_mono (t : Trial) (step : Nat) (s : Nat) :
    ∀ (l : List String) (st : StepMap), (lookupA st s).isSome = true →
      (lookupA (l.foldl (gradAcrossProc t step) st) s).isSome = true := by
  intro l
  induction l with
  | nil => intro st h; exact h
  | cons a l ih =>
      intro st h
      rw [List.foldl_cons]
      exact ih _ (gradAcrossProc_isSome_mono _ _ _ _ _ h)

theorem galFold_entry_exists (t : Trial) (step : Nat) {name : String} {ten : Tensor}
    (hv : t.value name step = some ten) :
    ∀ (l : List String) (st : StepMap), name ∈ l →
      (lookupA (l.foldl (gradAcrossProc t step) st) step).isSome = true := by
  intro l
  induction l with
  | nil => intro st h; cases h
  | cons a l ih =>
      intro st h
      rw [List.foldl_cons]
      by_cases ha : a = name
      · subst ha
        exact galFold_isSome_mono _ _ _ _ _ (gradAcrossProc_entry _ _ _ _ hv)
      · cases List.mem_cons.mp h with
        | inl h1 => exact absurd h1.symm ha
        | inr h2 => exact ih _ h2

theorem galFold_keys_extend (t : Trial) (step : Nat) :
    ∀ (l : List String) (st : StepMap),
      ∃ tl, keysA (l.foldl (gradAcrossProc t step) st) = keysA st ++ tl := by
  intro l
  induction l with
  | nil => intro st; exact ⟨[], by simp⟩
  | cons a l ih =>
      intro st
      rw [List.foldl_cons]
      obtain ⟨tl1, h1⟩ := gradAcrossProc_keys_extend t step st a
      obtain ⟨tl2, h2⟩ := ih (gradAcrossProc t step st a)
      exact ⟨tl1 ++ tl2, by rw [h2, h1, List.append_assoc]⟩

/-! ## Driver lemmas -/

theorem invoke_rule_eq_noMoreData {σ : Type} (f : σ → Nat → σ × Bool)
    (hf : ∀ st s, (f st s).2 = false) :
    ∀ (steps : List Nat) (st : σ),
      invoke_rule f steps st = RunResult.noMoreData (runSteps f steps st) := by
  intro steps
  induction steps with
  | nil => intro st; rfl
  | cons s rest ih =>
      intro st
      simp only [invoke_rule, runSteps, List.foldl_cons, hf st s, Bool.false_eq_true, if_false]
      exact ih _

theorem runSteps_invokeNamed_not_mem {Val : Type} (pat : String) (excl : Option String)
    (upd : Option Val → Tensor → Val) (t : Trial) (name : String) {s : Nat} :
    ∀ (steps : List Nat) (st : NamedMap Val), s ∉ steps →
      lookup2 (runSteps (fun st2 stp => invokeNamed pat excl upd t st2 stp) steps st) name s =
        lookup2 st name s := by
  intro steps
  induction steps with
  | nil => intro st _; rfl
  | cons a rest ih =>
      intro st h
      have ha : s ≠ a := fun e => h (e ▸ List.mem_cons_self a rest)
      simp only [runSteps, List.foldl_cons] at ih ⊢
      rw [ih _ (fun hx => h (List.mem_cons_of_mem a hx))]
      exact foldProc_lookup2_step_ne _ _ _ _ _ ha _ _

theorem runSteps_invokeNamed_isSome_mono {Val : Type} (pat : String) (excl : Option String)
    (upd : Option Val → Tensor → Val) (t : Trial) (name : String) (s : Nat) :
    ∀ (steps : List Nat) (st : NamedMap Val), (lookup2 st name s).isSome = true →
      (lookup2 (runSteps (fun st2 stp => invokeNamed pat excl upd t st2 stp) steps st)
        name s).isSome = true := by
  intro steps
  induction steps with
  | nil => intro st h; exact h
  | cons a rest ih =>
      intro st h
      simp only [runSteps, List.foldl_cons] at ih ⊢
      exact ih _ (foldProc_lookup2_isSome_mono _ _ _ _ _ _ _ _ h)

theorem runSteps_gal_not_mem (t : Trial) {s : Nat} :
    ∀ (steps : List Nat) (st : StepMap), s ∉ steps →
      lookupA (runSteps (fun st2 stp => GradientsAcrossLayers.invoke_at_step t st2 stp)
        steps st) s = lookupA st s := by
  intro steps
  induction steps with
  | nil => intro st _; rfl
  | cons a rest ih =>
      intro st h
      have ha : s ≠ a := fun e => h (e ▸ List.mem_cons_self a rest)
      simp only [runSteps, List.foldl_cons] at ih ⊢
      rw [ih _ (fun hx => h (List.mem_cons_of_mem a hx))]
      exact galFold_lookupA_ne _ _ ha _ _

/-! ## Concrete traces used by sample claims, counterexamples and witnesses -/

/-- A small trace: one activation output (a (4,3) all-ones tensor at step 0), a
name that matches the activation regex but contains the excluded substring, a
gradient tensor, and a name whose fetch always fails. -/
def trialW : Trial :=
  { names := ["a.relu_output", "gradients/a.relu_output", "b.gradient", "fail.relu_output"]
    value := fun n s =>
      if n == "a.relu_output" && s == 0 then
        some [[1, 1, 1], [1, 1, 1], [1, 1, 1], [1, 1, 1]]
      else if n == "gradients/a.relu_output" && s == 0 then some [[2, 2, 2]]
      else if n == "b.gradient" && s == 0 then some [[1, 2]]
      else none }

/-- A trace with a single gradient tensor at step 0 whose flattened values are
`[1, 2]`, of population variance 1/4. -/
def trialC3 : Trial :=
  { names := ["a.gradient"]
    value := fun n s => if n == "a.gradient" && s == 0 then some [[1], [2]] else none }

/-- A trace whose three gradient tensors at step 0 have variances 1/10, 1/2
and 1/5, in that order. -/
def trialC4 : Trial :=
  { names := ["a.gradient", "b.gradient", "c.gradient"]
    value := fun n s =>
      if s == 0 then
        if n == "a.gradient" then some [[1, -1, 0, 0, 0, 0, 0, 0, 0, 0, 0, 0, 0, 0, 0, 0, 0, 0, 0, 0]]
        else if n == "b.gradient" then some [[1, -1, 0, 0]]
        else if n == "c.gradient" then some [[1, -1, 0, 0, 0, 0, 0, 0, 0, 0]]
        else none
      else none }

/-- A trace with a single gradient tensor available at steps 3 and 5. -/
def trialC9 : Trial :=
  { names := ["a.gradient"]
    value := fun n s => if n == "a.gradient" && (s == 3 || s == 5) then some [[1]] else none }

/-! ## Claims -/

/-- C1: for every aggregation rule, every tensor name matching the rule's
configured filter (regex plus exclusion guard), and every step at which
fetching that tensor's value succeeds, after `invoke_at_step` for that step
the accumulated mapping contains an entry for that (name, step): for the six
name-keyed rules (all obtained by instantiating `invokeNamed`) the entry is
`tensors[name][step]`; for the step-keyed `GradientsAcrossLayers` the entry
covering the pair is `tensors[step]`. -/
theorem claim_C1_entries_present :
    (∀ (Val : Type) (pat : String) (excl : Option String) (upd : Option Val → Tensor → Val)
      (t : Trial) (st : NamedMap Val) (step : Nat) (name : String) (ten : Tensor),
      name ∈ t.names → hasSubstr name pat = true → exclCheck excl name = false →
      t.value name step = some ten →
      (lookup2 ((invokeNamed pat excl upd t st step).1) name step).isSome = true) ∧
    (∀ (t : Trial) (st : StepMap) (step : Nat) (name : String) (ten : Tensor),
      name ∈ t.names → hasSubstr name "gradient" = true → t.value name step = some ten →
      (lookupA ((GradientsAcrossLayers.invoke_at_step t st step).1) step).isSome = true) := by
  constructor
  · intro Val pat excl upd t st step name ten hmem hpat he hv
    have hin : name ∈ t.tensor_names pat := by
      simp only [Trial.tensor_names, List.mem_filter]
      exact ⟨hmem, hpat⟩
    exact foldProc_entry_exists excl upd t step he hv _ st hin
  · intro t st step name ten hmem hpat hv
    have hin : name ∈ t.tensor_names "gradient" := by
      simp only [Trial.tensor_names, List.mem_filter]
      exact ⟨hmem, hpat⟩
    exact galFold_entry_exists t step hv _ st hin

/-- Witness for C1 at a concrete trace: the activation output
`"a.relu_output"` fetched at step 0 and the gradient `"b.gradient"` fetched
at step 0 both leave an entry. -/
theorem claim_C1_witness :
    (lookup2 ((invokeNamed "relu_output" (some "gradients") sumUpd trialW [] 0).1)
      "a.relu_output" 0).isSome = true ∧
    (lookupA ((GradientsAcrossLayers.invoke_at_step trialW [] 0).1) 0).isSome = true := by
  constructor
  · exact claim_C1_entries_present.1 (List ℚ) "relu_output" (some "gradients") sumUpd trialW []
      0 "a.relu_output" [[1, 1, 1], [1, 1, 1], [1, 1, 1], [1, 1, 1]]
      (by simp [trialW]) (by decide) (by decide) (by simp [trialW])
  · exact claim_C1_entries_present.2 trialW [] 0 "b.gradient" [[1, 2]]
      (by simp [trialW]) (by decide) (by simp [trialW])

/-- C2: for the activation rules (`sumUpd` instances of `invokeNamed`), when a
matching name is seen exactly once in the pass over a step and holds no prior
entry for that step, the accumulated value for (name, step) is exactly
`np.sum(tensor, axis=0) / tensor.shape[0]`, the element-wise sum over the
batch (first) dimension divided by the batch size. -/
theorem claim_C2_batch_average (pat : String) (excl : Option String) (t : Trial)
    (st : NamedMap (List ℚ)) (step : Nat) (name : String) (ten : Tensor)
    (l1 l2 : List String)
    (hsplit : t.tensor_names pat = l1 ++ name :: l2)
    (h1 : name ∉ l1) (h2 : name ∉ l2)
    (hfresh : lookup2 st name step = none)
    (he : exclCheck excl name = false)
    (hv : t.value name step = some ten) :
    lookup2 ((invokeNamed pat excl sumUpd t st step).1) name step =
      some (batch_over_sum ten) := by
  have houter1 := foldProc_lookupA_skip excl sumUpd t step name l1 st (Or.inr h1)
  have hmid : lookup2 (l1.foldl (procName excl sumUpd t step) st) name step = none := by
    simp only [lookup2] at hfresh ⊢
    rw [houter1]
    exact hfresh
  have hself := procName_self excl sumUpd t step (l1.foldl (procName excl sumUpd t step) st)
    he hv
  rw [hmid] at hself
  have houter2 := foldProc_lookupA_skip excl sumUpd t step name l2
    (procName excl sumUpd t step (l1.foldl (procName excl sumUpd t step) st) name)
    (Or.inr h2)
  simp only [invokeNamed, hsplit, List.foldl_append, List.foldl_cons]
  simp only [lookup2] at hself ⊢
  rw [houter2]
  exact hself

/-- Witness for C2, the spec's sample: a (4,3) all-ones tensor at step 0
accumulates the per-feature batch average `[1, 1, 1]`. -/
theorem claim_C2_witness :
    lookup2 ((invokeNamed "relu_output" (some "gradients") sumUpd trialW [] 0).1)
      "a.relu_output" 0 = some [1, 1, 1] := by
  have h := claim_C2_batch_average "relu_output" (some "gradients") trialW [] 0
    "a.relu_output" [[1, 1, 1], [1, 1, 1], [1, 1, 1], [1, 1, 1]]
    [] ["gradients/a.relu_output", "fail.relu_output"]
    (by simp [trialW, Trial.tensor_names, hasSubstr, hasSubL, leadMatch])
    (by simp) (by decide) (by simp [lookup2, lookupA]) (by decide) (by simp [trialW])
  rw [h]
  norm_num [batch_over_sum, sumAxis0]

/-- C3 (showing the defect): at a step whose only successfully fetched
gradient variance is 1/4, `GradientsAcrossLayers` records the pair
(1/4, 0) — the second component is the initial 0, not the maximum 1/4 of the
fetched variances, because the `elif` max-update is skipped whenever the
min-update fires. -/
theorem claim_C3_minmax_code_bug :
    ((trialC3.tensor_names "gradient").map
      (fun n => (trialC3.value n 0).map (fun ten => npvar ten.flatten))) = [some (1/4)] ∧
    lookupA ((GradientsAcrossLayers.invoke_at_step trialC3 [] 0).1) 0 =
      some (some (1/4), 0) := by
  constructor
  · norm_num [trialC3, Trial.tensor_names, hasSubstr, hasSubL, leadMatch, npvar]
  · norm_num [trialC3, GradientsAcrossLayers.invoke_at_step, gradAcrossProc,
      Trial.tensor_names, hasSubstr, hasSubL, leadMatch, npvar, lookupA, insertA]

/-- C4: on a step whose fetched per-tensor variances are, in order,
1/10, 1/2, 1/5 (= 0.1, 0.5, 0.2), the recorded pair for that step is
(1/10, 1/2) = (0.1, 0.5). -/
theorem claim_C4_concrete_minmax :
    ((trialC4.tensor_names "gradient").map
      (fun n => (trialC4.value n 0).map (fun ten => npvar ten.flatten))) =
      [some (1/10), some (1/2), some (1/5)] ∧
    lookupA ((GradientsAcrossLayers.invoke_at_step trialC4 [] 0).1) 0 =
      some (some (1/10), 1/2) := by
  constructor
  · simp [trialC4, Trial.tensor_names, hasSubstr, hasSubL, leadMatch, npvar]
    norm_num
  · norm_num [trialC4, GradientsAcrossLayers.invoke_at_step, gradAcrossProc,
      Trial.tensor_names, hasSubstr, hasSubL, leadMatch, npvar, lookupA, insertA]

/-- C5: a failed fetch for one name at one step is absorbed by the
`try/except` — the loop body leaves the accumulator unchanged for that name
and no exception escapes (the embedded `invoke_at_step` is a total function);
every other matching name successfully fetched at that same step still gets
its entry, and entries present after the step survive any sequence of later
steps. -/
theorem claim_C5_fetch_failure_skipped (Val : Type) (pat : String) (excl : Option String)
    (upd : Option Val → Tensor → Val) (t : Trial) (st : NamedMap Val) (step : Nat)
    (nameF : String) (hfail : t.value nameF step = none) :
    procName excl upd t step st nameF = st ∧
    (∀ (n : String) (ten : Tensor), n ∈ t.names → hasSubstr n pat = true →
      exclCheck excl n = false → t.value n step = some ten →
      (lookup2 ((invokeNamed pat excl upd t st step).1) n step).isSome = true) ∧
    (∀ (steps : List Nat) (n : String) (s : Nat),
      (lookup2 ((invokeNamed pat excl upd t st step).1) n s).isSome = true →
      (lookup2 (runSteps (fun st2 stp => invokeNamed pat excl upd t st2 stp) steps
        ((invokeNamed pat excl upd t st step).1)) n s).isSome = true) := by
  refine ⟨procName_fail _ _ _ _ _ _ hfail, ?_, ?_⟩
  · intro n ten hmem hpat he hv
    have hin : n ∈ t.tensor_names pat := by
      simp only [Trial.tensor_names, List.mem_filter]
      exact ⟨hmem, hpat⟩
    exact foldProc_entry_exists excl upd t step he hv _ st hin
  · intro steps n s h
    exact runSteps_invokeNamed_isSome_mono pat excl upd t n s steps _ h

/-- Witness for C5: `"fail.relu_output"` never fetches; its loop iteration
leaves the empty accumulator empty, while `"a.relu_output"` at the same
step 0 still gets its entry. -/
theorem claim_C5_witness :
    procName (some "gradients") sumUpd trialW 0 [] "fail.relu_output" = [] ∧
    (lookup2 ((invokeNamed "relu_output" (some "gradients") sumUpd trialW [] 0).1)
      "a.relu_output" 0).isSome = true := by
  obtain ⟨hA, hB, hC⟩ := claim_C5_fetch_failure_skipped (List ℚ) "relu_output"
    (some "gradients") sumUpd trialW [] 0 "fail.relu_output" (by simp [trialW])
  exact ⟨hA, hB "a.relu_output" [[1, 1, 1], [1, 1, 1], [1, 1, 1], [1, 1, 1]]
    (by simp [trialW]) (by decide) (by decide) (by simp [trialW])⟩

/-- C6: the rules' `invoke_at_step` never reports an issue, so the driver run
always terminates with the `NoMoreData` signal; the notebook's
`try/except NoMoreData` absorbs it, handing the plotting cells exactly the
state accumulated so far — in particular every entry present before the
signal is still present (shown for `ActivationOutputs`, and the signal
behaviour also for `GradientsAcrossLayers`). -/
theorem claim_C6_no_more_data (t : Trial) (steps : List Nat) (st : NamedMap (List ℚ))
    (stG : StepMap) :
    invoke_rule (fun s2 stp => ActivationOutputs.invoke_at_step t s2 stp) steps st =
      RunResult.noMoreData
        (runSteps (fun s2 stp => ActivationOutputs.invoke_at_step t s2 stp) steps st) ∧
    notebookRun (fun s2 stp => ActivationOutputs.invoke_at_step t s2 stp) steps st =
      runSteps (fun s2 stp => ActivationOutputs.invoke_at_step t s2 stp) steps st ∧
    (∀ (n : String) (s : Nat), (lookup2 st n s).isSome = true →
      (lookup2 (notebookRun (fun s2 stp => ActivationOutputs.invoke_at_step t s2 stp)
        steps st) n s).isSome = true) ∧
    invoke_rule (fun s2 stp => GradientsAcrossLayers.invoke_at_step t s2 stp) steps stG =
      RunResult.noMoreData
        (runSteps (fun s2 stp => GradientsAcrossLayers.invoke_at_step t s2 stp) steps stG) := by
  have hAO := invoke_rule_eq_noMoreData
    (fun s2 stp => ActivationOutputs.invoke_at_step t s2 stp) (fun _ _ => rfl) steps st
  have hnb : notebookRun (fun s2 stp => ActivationOutputs.invoke_at_step t s2 stp) steps st =
      runSteps (fun s2 stp => ActivationOutputs.invoke_at_step t s2 stp) steps st := by
    unfold notebookRun
    rw [hAO]
  refine ⟨hAO, hnb, ?_, invoke_rule_eq_noMoreData
    (fun s2 stp => GradientsAcrossLayers.invoke_at_step t s2 stp) (fun _ _ => rfl) steps stG⟩
  intro n s h
  rw [hnb]
  exact runSteps_invokeNamed_isSome_mono "relu_output" (some "gradients") sumUpd t n s
    steps st h

/-- Witness for C6: a one-step run of `ActivationOutputs` started from a state
holding an entry ends in the caught `NoMoreData` branch and keeps the entry. -/
theorem claim_C6_witness :
    notebookRun (fun s2 stp => ActivationOutputs.invoke_at_step trialW s2 stp) [1]
        [("a.relu_output", [(0, [1, 1, 1])])] =
      runSteps (fun s2 stp => ActivationOutputs.invoke_at_step trialW s2 stp) [1]
        [("a.relu_output", [(0, [1, 1, 1])])] ∧
    (lookup2 (notebookRun (fun s2 stp => ActivationOutputs.invoke_at_step trialW s2 stp) [1]
      [("a.relu_output", [(0, [1, 1, 1])])]) "a.relu_output" 0).isSome = true := by
  obtain ⟨h1, h2, h3, h4⟩ := claim_C6_no_more_data trialW [1]
    [("a.relu_output", [(0, [1, 1, 1])])] []
  exact ⟨h2, h3 "a.relu_output" 0 (by simp [lookup2, lookupA])⟩

/-- C7: a tensor name that does not match a rule's regex, or that contains the
rule's excluded substring ("gradients" for the activation rules, "gradient"
for the weight rule, "relu" for the layer input/output rules), never receives
an entry in the accumulated mapping of any run over any step sequence. -/
theorem claim_C7_filter_exclusion (Val : Type) (pat : String) (excl : Option String)
    (upd : Option Val → Tensor → Val) (t : Trial) (steps : List Nat) (name : String)
    (h : hasSubstr name pat = false ∨ exclCheck excl name = true) :
    lookupA (runSteps (fun st stp => invokeNamed pat excl upd t st stp) steps
      ([] : NamedMap Val)) name = none := by
  have key : ∀ (stp : Nat) (st : NamedMap Val),
      lookupA ((invokeNamed pat excl upd t st stp).1) name = lookupA st name := by
    intro stp st
    apply foldProc_lookupA_skip
    cases h with
    | inl hp =>
        refine Or.inr (fun hxin => ?_)
        have := (List.mem_filter.mp hxin).2
        rw [hp] at this
        exact Bool.false_ne_true this
    | inr he => exact Or.inl he
  suffices hgen : ∀ (l : List Nat) (st : NamedMap Val), lookupA st name = none →
      lookupA (runSteps (fun st2 stp => invokeNamed pat excl upd t st2 stp) l st) name =
        none by
    exact hgen steps [] rfl
  intro l
  induction l with
  | nil => intro st h0; exact h0
  | cons a rest ih =>
      intro st h0
      simp only [runSteps, List.foldl_cons] at ih ⊢
      apply ih
      rw [key a st]
      exact h0

/-- Witness for C7: the name `"w.gradient.weight"` matches the weight rule's
regex but contains the excluded substring "gradient"; after a two-step run it
has no entry. -/
theorem claim_C7_witness :
    lookupA (runSteps (fun st stp => invokeNamed "weight" (some "gradient") storeUpd trialW
      st stp) [0, 1] ([] : NamedMap Tensor)) "w.gradient.weight" = none := by
  exact claim_C7_filter_exclusion Tensor "weight" (some "gradient") storeUpd trialW [0, 1]
    "w.gradient.weight" (Or.inr (by decide))

/-- C8: over a run in which each step is processed once, a (name, step) entry
is written only while that step itself is processed: processing any set of
steps not containing `s` leaves the value at (name, s) untouched (first
conjunct; third conjunct for the step-keyed rule), and in a run over
`l1 ++ s :: l2` with `s ∉ l2` the final value at (name, s) is exactly the
value right after step `s`'s own `invoke_at_step` (second conjunct) — values
are never mutated or deleted by later steps. -/
theorem claim_C8_write_once :
    (∀ (Val : Type) (pat : String) (excl : Option String) (upd : Option Val → Tensor → Val)
      (t : Trial) (st : NamedMap Val) (steps : List Nat) (name : String) (s : Nat),
      s ∉ steps →
      lookup2 (runSteps (fun st2 stp => invokeNamed pat excl upd t st2 stp) steps st)
        name s = lookup2 st name s) ∧
    (∀ (Val : Type) (pat : String) (excl : Option String) (upd : Option Val → Tensor → Val)
      (t : Trial) (st : NamedMap Val) (l1 l2 : List Nat) (s : Nat) (name : String),
      s ∉ l2 →
      lookup2 (runSteps (fun st2 stp => invokeNamed pat excl upd t st2 stp)
        (l1 ++ s :: l2) st) name s =
      lookup2 ((invokeNamed pat excl upd t
        (runSteps (fun st2 stp => invokeNamed pat excl upd t st2 stp) l1 st) s).1)
        name s) ∧
    (∀ (t : Trial) (stG : StepMap) (steps : List Nat) (s : Nat), s ∉ steps →
      lookupA (runSteps (fun st2 stp => GradientsAcrossLayers.invoke_at_step t st2 stp)
        steps stG) s = lookupA stG s) := by
  refine ⟨?_, ?_, ?_⟩
  · intro Val pat excl upd t st steps name s hs
    exact runSteps_invokeNamed_not_mem pat excl upd t name steps st hs
  · intro Val pat excl upd t st l1 l2 s name hs
    have h := runSteps_invokeNamed_not_mem pat excl upd t name l2
      ((invokeNamed pat excl upd t
        (runSteps (fun st2 stp => invokeNamed pat excl upd t st2 stp) l1 st) s).1) hs
    simp only [runSteps, List.foldl_append, List.foldl_cons] at h ⊢
    exact h
  · intro t stG steps s hs
    exact runSteps_gal_not_mem t steps stG hs

/-- Witness for C8: an entry written at step 0 is unchanged by a later run
over steps 1 and 2. -/
theorem claim_C8_witness :
    lookup2 (runSteps (fun st2 stp => invokeNamed "relu_output" (some "gradients") sumUpd
        trialW st2 stp) [1, 2] [("a.relu_output", [(0, [1, 1, 1])])])
      "a.relu_output" 0 =
    lookup2 [("a.relu_output", [(0, [1, 1, 1])])] "a.relu_output" 0 := by
  exact claim_C8_write_once.1 (List ℚ) "relu_output" (some "gradients") sumUpd trialW
    [("a.relu_output", [(0, [1, 1, 1])])] [1, 2] "a.relu_output" 0 (by decide)

/-- C9 counterexample: the claim says the output of every aggregation rule is
an ordered mapping whose keys are tensor names. Were that so, a run could
never produce more top-level keys than there are matching tensor names. The
`GradientsAcrossLayers` run below sees one matching name at two steps, yet its
accumulated mapping has the two keys `[3, 5]` — they are steps, not names. -/
theorem claim_C9_counterexample :
    keysA (runSteps (fun st stp => GradientsAcrossLayers.invoke_at_step trialC9 st stp)
      [3, 5] ([] : StepMap)) = [3, 5] ∧
    (trialC9.tensor_names "gradient").length <
      (keysA (runSteps (fun st stp => GradientsAcrossLayers.invoke_at_step trialC9 st stp)
        [3, 5] ([] : StepMap))).length := by
  constructor
  · simp [runSteps, trialC9, GradientsAcrossLayers.invoke_at_step, gradAcrossProc,
      Trial.tensor_names, hasSubstr, hasSubL, leadMatch, npvar, lookupA, insertA, keysA]
  · simp [runSteps, trialC9, GradientsAcrossLayers.invoke_at_step, gradAcrossProc,
      Trial.tensor_names, hasSubstr, hasSubL, leadMatch, npvar, lookupA, insertA, keysA]

/-- C9 (amended): the six name-keyed rules expose name → (step → value)
ordered mappings in which keys are only ever appended — so names appear in
first-encounter order and each name's steps in processing order; the
cross-layer rule `GradientsAcrossLayers` instead exposes a step-keyed ordered
mapping, its steps likewise in first-encounter order. -/
theorem claim_C9_ordered_mappings :
    (∀ (Val : Type) (pat : String) (excl : Option String) (upd : Option Val → Tensor → Val)
      (t : Trial) (st : NamedMap Val) (step : Nat),
      ∃ tl, keysA ((invokeNamed pat excl upd t st step).1) = keysA st ++ tl) ∧
    (∀ (Val : Type) (pat : String) (excl : Option String) (upd : Option Val → Tensor → Val)
      (t : Trial) (st : NamedMap Val) (step : Nat) (name : String)
      (inner : List (Nat × Val)),
      lookupA st name = some inner →
      ∃ inner2 tl, lookupA ((invokeNamed pat excl upd t st step).1) name = some inner2 ∧
        keysA inner2 = keysA inner ++ tl) ∧
    (∀ (t : Trial) (st : StepMap) (step : Nat),
      ∃ tl, keysA ((GradientsAcrossLayers.invoke_at_step t st step).1) = keysA st ++ tl) := by
  refine ⟨?_, ?_, ?_⟩
  · intro Val pat excl upd t st step
    exact foldProc_keys_extend excl upd t step _ st
  · intro Val pat excl upd t st step name inner h
    exact foldProc_inner_keys_extend excl upd t step name _ st inner h
  · intro t st step
    exact galFold_keys_extend t step _ st

/-- Witness for the amended C9: starting from a state already holding
`"a.relu_output" ↦ (0 ↦ [1,1,1])`, one more step only appends keys. -/
theorem claim_C9_witness :
    (∃ tl, keysA ((invokeNamed "relu_output" (some "gradients") sumUpd trialW
      [("a.relu_output", [(0, [1, 1, 1])])] 1).1) =
      keysA [("a.relu_output", [(0, [1, 1, 1])])] ++ tl) ∧
    (∃ inner2 tl, lookupA ((invokeNamed "relu_output" (some "gradients") sumUpd trialW
        [("a.relu_output", [(0, [1, 1, 1])])] 1).1) "a.relu_output" = some inner2 ∧
      keysA inner2 = keysA [(0, [1, 1, 1])] ++ tl) := by
  constructor
  · exact claim_C9_ordered_mappings.1 (List ℚ) "relu_output" (some "gradients") sumUpd
      trialW [("a.relu_output", [(0, [1, 1, 1])])] 1
  · exact claim_C9_ordered_mappings.2.1 (List ℚ) "relu_output" (some "gradients") sumUpd
      trialW [("a.relu_output", [(0, [1, 1, 1])])] 1 "a.relu_output" [(0, [1, 1, 1])]
      (by simp [lookupA])

/-- C10: every rule class's `invoke_at_step` ends in `return False` with no
other return, so no rule ever reports "Issue found" and the run is never
stopped by the rule condition. -/
theorem claim_C10_invoke_returns_false :
    ∀ (t : Trial) (stq : NamedMap (List ℚ)) (stt : NamedMap Tensor) (stG : StepMap)
      (step : Nat),
      (ActivationOutputs.invoke_at_step t stq step).2 = false ∧
      (ActivationInputs.invoke_at_step t stq step).2 = false ∧
      (GradientsLayer.invoke_at_step t stt step).2 = false ∧
      (GradientsAcrossLayers.invoke_at_step t stG step).2 = false ∧
      (WeightRatioRule.invoke_at_step t stt step).2 = false ∧
      (Inputs.invoke_at_step t stt step).2 = false ∧
      (Outputs.invoke_at_step t stt step).2 = false := by
  intro t stq stt stG step
  exact ⟨rfl, rfl, rfl, rfl, rfl, rfl, rfl⟩
